import Mathlib

/-!
Shallow embedding of the Deep-Transition-Dependency-Parser core.

The embedded source files are src/gtnlplib/feat_extractors.py (the
feature extractor) and src/gtnlplib/neural_net.py (the neural scoring
components).  The `ParserState` class, its peek and transition
operations, and the decoding loop are referenced by those files but
their source is not part of the excerpt; they are modelled from the
specification, and every such definition is marked
`Modelled from the spec:` in its doc comment.  PyTorch (`nn.Linear`,
`nn.LSTM`, activation functions) is an external library: linear layers
and elementwise activations are embedded concretely over `ℚ` (with the
transcendental activations abstracted as function parameters), while
`nn.LSTM` is modelled as an opaque function field obeying torch's
documented shape contract.  Fallible Python operations (tuple indexing,
dictionary lookup, tensor resize with a size mismatch) return `Option`;
transitions that raise `IllegalActionError` return `Except`.
-/

namespace DepParser

/-! ### Feature-extraction view of the parser state -/

/-- Modelled from the spec: the `ParserState` class is not in the source
excerpt (only its callers are).  Feature extraction needs the stack, the
input buffer and the designated NULL sentinel entry used for padding.
The stack is stored top first, the buffer front first; entry contents
are abstract in `α` (the parser stores tuples, which
`SimpleFeatureExtractor` indexes positionally). -/
structure FParserState (α : Type) where
  stack : List α
  buffer : List α
  null_entry : α

/-- Modelled from the spec: `stack_peek_n(n)` returns the top `n` stack
entries, closest to top first, padded with the NULL sentinel when the
stack is shallower, so callers always receive exactly `n` entries; a
read-only view, no failure possible. -/
def FParserState.stack_peek_n (s : FParserState α) (n : ℕ) : List α :=
  s.stack.take n ++ List.replicate (n - s.stack.length) s.null_entry

/-- Modelled from the spec: `input_buffer_peek_n(n)`, the same contract
applied to the front of the buffer. -/
def FParserState.input_buffer_peek_n (s : FParserState α) (n : ℕ) : List α :=
  s.buffer.take n ++ List.replicate (n - s.buffer.length) s.null_entry

/-- Embedding of `SimpleFeatureExtractor.get_features`
(src/gtnlplib/feat_extractors.py lines 27-29):
`feats = [stackEntry[2] for stackEntry in parser_state.stack_peek_n(2)]`
then `feats.append(parser_state.input_buffer_peek_n(1)[0][2])`.
Entries are positional tuples, embedded as `List β`; Python indexing can
raise `IndexError`, so each `[2]` / `[0]` is `List.get?` and the result
is an `Option`.  The `**kwargs` argument is accepted and never read,
exactly as in the source. -/
def SimpleFeatureExtractor.get_features (s : FParserState (List β)) (_kwargs : κ) :
    Option (List β) := do
  let feats ← (s.stack_peek_n 2).mapM (fun e => e.get? 2)
  let frontEntry ← (s.input_buffer_peek_n 1).get? 0
  let front ← frontEntry.get? 2
  pure (feats ++ [front])

/-- Modelled from the spec: state-passing form of `stack_peek_n`.  The
spec declares the peeks read-only ("No mutation; no failure possible"),
so the operation returns its result together with the unchanged state. -/
def FParserState.stack_peek_nST (s : FParserState α) (n : ℕ) :
    List α × FParserState α :=
  (s.stack_peek_n n, s)

/-- Modelled from the spec: state-passing form of `input_buffer_peek_n`. -/
def FParserState.input_buffer_peek_nST (s : FParserState α) (n : ℕ) :
    List α × FParserState α :=
  (s.input_buffer_peek_n n, s)

/-- State-passing form of `SimpleFeatureExtractor.get_features`: the
method body only calls the two peek operations, so the state it hands
back is the state those calls hand back. -/
def SimpleFeatureExtractor.get_featuresST (s : FParserState (List β)) (_kwargs : κ) :
    Option (List β) × FParserState (List β) :=
  let p := s.stack_peek_nST 2
  let q := p.2.input_buffer_peek_nST 1
  ((do
    let feats ← p.1.mapM (fun e => e.get? 2)
    let frontEntry ← q.1.get? 0
    let front ← frontEntry.get? 2
    pure (feats ++ [front])), q.2)

theorem stack_peek_two (s : FParserState α) :
    s.stack_peek_n 2 =
      [s.stack.headD s.null_entry, (s.stack.drop 1).headD s.null_entry] := by
  match h : s.stack with
  | [] => simp [FParserState.stack_peek_n, h, List.replicate]
  | [a] => simp [FParserState.stack_peek_n, h, List.replicate]
  | a :: b :: t => simp [FParserState.stack_peek_n, h]

theorem buffer_peek_one (s : FParserState α) :
    s.input_buffer_peek_n 1 = [s.buffer.headD s.null_entry] := by
  match h : s.buffer with
  | [] => simp [FParserState.input_buffer_peek_n, h, List.replicate]
  | a :: t => simp [FParserState.input_buffer_peek_n, h]

/-! ### Parser state machine: tokens, transitions, legality -/

/-- The three parser actions, SHIFT, REDUCE_L and REDUCE_R
(`Actions` in gtnlplib/constants.py, imported by neural_net.py). -/
inductive Action
  | shift
  | reduceL
  | reduceR
deriving DecidableEq

/-- Modelled from the spec: `IllegalActionError`, raised when an action
is attempted whose precondition fails. -/
inductive IllegalActionError
  | illegalAction
deriving DecidableEq

/-- Modelled from the spec: every stack/buffer slot stores the original
word and its current representation vector; tokens also carry their
sentence index, used to record arcs as (head_index, modifier_index). -/
structure Token where
  word : String
  idx : ℕ
  vec : List ℚ
deriving DecidableEq

/-- Modelled from the spec: the full `ParserState` for the transition
system — stack (top first), buffer (front first) and the record of built
arcs as (head_index, modifier_index) pairs, which only grows. -/
structure TParserState where
  stack : List Token
  buffer : List Token
  arcs : List (ℕ × ℕ)
deriving DecidableEq

/-- Modelled from the spec: `shift()` moves the front buffer token onto
the top of the stack; fails with `IllegalActionError` when the buffer is
empty.  The embedding is purely functional, so an `error` result leaves
the caller's state exactly as it was (atomicity is inherent). -/
def shift (s : TParserState) : Except IllegalActionError TParserState :=
  match s.buffer with
  | [] => .error .illegalAction
  | t :: rest => .ok ⟨t :: s.stack, rest, s.arcs⟩

/-- Modelled from the spec: `reduce_left()` pops the top two stack
entries A (top) and B (second from top), designates A as head and B as
modifier, records the arc (A, B), and pushes the combined token (surface
form and index of the head, vector from the external combiner).  Fails
with `IllegalActionError` when the stack has fewer than 2 entries. -/
def reduce_left (c : List ℚ → List ℚ → List ℚ) (s : TParserState) :
    Except IllegalActionError TParserState :=
  match s.stack with
  | a :: b :: rest =>
      .ok ⟨⟨a.word, a.idx, c a.vec b.vec⟩ :: rest, s.buffer, s.arcs ++ [(a.idx, b.idx)]⟩
  | _ => .error .illegalAction

/-- Modelled from the spec: `reduce_right()`, symmetric — B (second from
top) is the head, A (top) the modifier, arc (B, A) is recorded.  Same
failure condition. -/
def reduce_right (c : List ℚ → List ℚ → List ℚ) (s : TParserState) :
    Except IllegalActionError TParserState :=
  match s.stack with
  | a :: b :: rest =>
      .ok ⟨⟨b.word, b.idx, c b.vec a.vec⟩ :: rest, s.buffer, s.arcs ++ [(b.idx, a.idx)]⟩
  | _ => .error .illegalAction

/-- Modelled from the spec: the transition function, dispatching an
action to its operation; `c` is the external combiner. -/
def applyAction (c : List ℚ → List ℚ → List ℚ) :
    Action → TParserState → Except IllegalActionError TParserState
  | .shift => shift
  | .reduceL => reduce_left c
  | .reduceR => reduce_right c

/-- Modelled from the spec: the caught-exception run of a transition —
the state an in-place implementation holds after attempting the action:
the new state on success, the unchanged old state when the action raised
`IllegalActionError`. -/
def tryAction (c : List ℚ → List ℚ → List ℚ) (a : Action) (s : TParserState) :
    TParserState :=
  match applyAction c a s with
  | .ok t => t
  | .error _ => s

/-- Modelled from the spec: the legal-action filter — SHIFT is legal iff
the buffer is non-empty, REDUCE_L and REDUCE_R are legal iff the stack
has depth at least 2. -/
def legal_actions (s : TParserState) : List Action :=
  (if s.buffer.isEmpty then [] else [.shift]) ++
    (if 2 ≤ s.stack.length then [.reduceL, .reduceR] else [])

/-- Modelled from the spec: the state created once per sentence — buffer
holds the full sentence in order, stack and arcs empty. -/
def initialState (sent : List Token) : TParserState :=
  ⟨[], sent, []⟩

/-- Modelled from the spec: the DONE condition of the decoding loop —
buffer empty and stack size exactly 1. -/
def done (s : TParserState) : Prop :=
  s.buffer = [] ∧ s.stack.length = 1

/-- Modelled from the spec: the states the decoding loop can reach while
parsing `sent` — the initial state, plus anything obtained by applying a
legal action (the loop masks illegal ones) that succeeds. -/
inductive Reachable (c : List ℚ → List ℚ → List ℚ) (sent : List Token) :
    TParserState → Prop
  | init : Reachable c sent (initialState sent)
  | step {s t : TParserState} {a : Action} : Reachable c sent s →
      a ∈ legal_actions s → applyAction c a s = .ok t → Reachable c sent t

theorem shift_ok {s t : TParserState} (h : shift s = .ok t) :
    s.buffer ≠ [] ∧ t.stack.length = s.stack.length + 1 ∧
      t.buffer.length + 1 = s.buffer.length ∧ t.arcs = s.arcs := by
  match hb : s.buffer with
  | [] => simp [shift, hb] at h
  | x :: rest =>
      simp only [shift, hb] at h
      cases h
      simp

theorem reduce_left_ok {c} {s t : TParserState} (h : reduce_left c s = .ok t) :
    2 ≤ s.stack.length ∧ t.stack.length + 1 = s.stack.length ∧
      t.buffer = s.buffer ∧ t.arcs.length = s.arcs.length + 1 := by
  match hs : s.stack with
  | [] => simp [reduce_left, hs] at h
  | [a] => simp [reduce_left, hs] at h
  | a :: b :: rest =>
      simp only [reduce_left, hs] at h
      cases h
      simp [hs]

theorem reduce_right_ok {c} {s t : TParserState} (h : reduce_right c s = .ok t) :
    2 ≤ s.stack.length ∧ t.stack.length + 1 = s.stack.length ∧
      t.buffer = s.buffer ∧ t.arcs.length = s.arcs.length + 1 := by
  match hs : s.stack with
  | [] => simp [reduce_right, hs] at h
  | [a] => simp [reduce_right, hs] at h
  | a :: b :: rest =>
      simp only [reduce_right, hs] at h
      cases h
      simp [hs]

/-- Conservation invariant of the transition system: stack size, buffer
size and arc count always sum to the sentence length. -/
theorem reachable_count {c sent} {s : TParserState} (h : Reachable c sent s) :
    s.stack.length + s.buffer.length + s.arcs.length = sent.length := by
  induction h with
  | init => simp [initialState]
  | @step s t a _ _ happ ih =>
      cases a with
      | shift =>
          obtain ⟨_, h1, h2, h3⟩ := shift_ok happ
          rw [h3]
          omega
      | reduceL =>
          obtain ⟨_, h1, h2, h3⟩ := reduce_left_ok happ
          rw [h2]
          omega
      | reduceR =>
          obtain ⟨_, h1, h2, h3⟩ := reduce_right_ok happ
          rw [h2]
          omega

/-! ### Neural scoring components (src/gtnlplib/neural_net.py) -/

/-- Row vectors of shape (1, n) are embedded as lists of rationals of
length n; the batch dimension of size 1 is elided throughout. -/
abbrev Vec := List ℚ

/-- Modelled from the spec: `utils.concat_and_flatten` (utils.py is not
in the excerpt) concatenates a list of row vectors into the single row
vector the scorer and combiners consume. -/
def concat_and_flatten (vs : List Vec) : Vec :=
  vs.flatten

/-- Dot product of two equal-length vectors. -/
def dot (w x : Vec) : ℚ :=
  (List.zipWith (fun a b => a * b) w x).sum

/-- Embedding of torch's `nn.Linear`: an affine map given by a weight
matrix (one row per output feature) and a bias vector.  Applying it to
an input of the wrong width is a torch shape error, hence `Option`. -/
structure Linear where
  inFeatures : ℕ
  outFeatures : ℕ
  weight : List Vec
  bias : Vec
deriving DecidableEq

/-- Well-formedness of a linear layer: the weight matrix and bias match
the declared feature counts. -/
def Linear.wf (l : Linear) : Prop :=
  l.weight.length = l.outFeatures ∧ (∀ r ∈ l.weight, r.length = l.inFeatures) ∧
    l.bias.length = l.outFeatures

/-- Application of a linear layer: `some (W x + b)` when the input width
matches, `none` (a shape error) otherwise. -/
def Linear.apply (l : Linear) (x : Vec) : Option Vec :=
  if x.length = l.inFeatures then
    some (List.zipWith (fun w b => dot w x + b) l.weight l.bias)
  else
    none

theorem Linear.apply_wf {l : Linear} (hw : l.wf) (x : Vec)
    (hx : x.length = l.inFeatures) :
    ∃ y, l.apply x = some y ∧ y.length = l.outFeatures := by
  obtain ⟨h1, _, h3⟩ := hw
  refine ⟨_, by rw [Linear.apply, if_pos hx], ?_⟩
  simp [List.length_zipWith, h1, h3]

/-- Embedding of `F.relu`, applied elementwise. -/
def relu (x : ℚ) : ℚ :=
  max x 0

/-- Embedding of `F.log_softmax`: subtracts the log of the sum of
exponentials from every entry.  `expF` and `logF` stand for the real
exponential and logarithm, abstracted because the claims about this
layer concern its shape, not transcendental arithmetic. -/
def log_softmax (expF logF : ℚ → ℚ) (v : Vec) : Vec :=
  v.map (fun x => x - logF ((v.map expF).sum))

theorem log_softmax_length (expF logF : ℚ → ℚ) (v : Vec) :
    (log_softmax expF logF v).length = v.length := by
  simp [log_softmax]

/-- Embedding of `MLPCombinerNetwork` (neural_net.py lines 153-199):
`embedding_dim` and the two linear layers built in `__init__`. -/
structure MLPCombinerNetwork where
  embedding_dim : ℕ
  first_layer : Linear
  second_layer : Linear
deriving DecidableEq

/-- Embedding of `MLPCombinerNetwork.__init__` (lines 177-191):
`first_layer = nn.Linear(2 * embedding_dim, embedding_dim)` and
`second_layer = nn.Linear(embedding_dim, embedding_dim)`; the learned
weights are supplied by the caller (torch initializes them randomly). -/
def MLPCombinerNetwork.new (embedding_dim : ℕ) (w1 : List Vec) (b1 : Vec)
    (w2 : List Vec) (b2 : Vec) : MLPCombinerNetwork :=
  ⟨embedding_dim, ⟨2 * embedding_dim, embedding_dim, w1, b1⟩,
    ⟨embedding_dim, embedding_dim, w2, b2⟩⟩

/-- Well-formedness of an `MLPCombinerNetwork`: the layer dimensions are
the ones `__init__` constructs. -/
def MLPCombinerNetwork.wf (n : MLPCombinerNetwork) : Prop :=
  n.first_layer.wf ∧ n.second_layer.wf ∧
    n.first_layer.inFeatures = 2 * n.embedding_dim ∧
    n.first_layer.outFeatures = n.embedding_dim ∧
    n.second_layer.inFeatures = n.embedding_dim ∧
    n.second_layer.outFeatures = n.embedding_dim

/-- Embedding of `MLPCombinerNetwork.forward` (lines 193-199):
`second_layer(F.tanh(first_layer(concat_and_flatten([head, modifier]))))`,
with `tanhF` the abstracted elementwise `F.tanh`. -/
def MLPCombinerNetwork.forward (tanhF : ℚ → ℚ) (n : MLPCombinerNetwork)
    (head_embed modifier_embed : Vec) : Option Vec := do
  let h1 ← n.first_layer.apply (concat_and_flatten [head_embed, modifier_embed])
  n.second_layer.apply (h1.map tanhF)

/-- The recurrent state `(h_0, c_0)` of a torch LSTM.  Torch shapes them
(layers, batch, width); with batch fixed at 1 each is embedded as a list
of `layers` rows of length `width`. -/
structure LSTMState where
  h : List Vec
  c : List Vec

/-- The all-zero recurrent state, as built by both `init_hidden`
methods (`torch.zeros` / `FloatTensor(...).zero_()`). -/
def zeroState (layers width : ℕ) : LSTMState :=
  ⟨List.replicate layers (List.replicate width 0),
    List.replicate layers (List.replicate width 0)⟩

/-- Shape well-formedness of a recurrent state. -/
def LSTMStateWf (layers width : ℕ) (st : LSTMState) : Prop :=
  st.h.length = layers ∧ (∀ v ∈ st.h, v.length = width) ∧
    st.c.length = layers ∧ (∀ v ∈ st.c, v.length = width)

theorem zeroState_wf (layers width : ℕ) :
    LSTMStateWf layers width (zeroState layers width) := by
  refine ⟨by simp [zeroState], ?_, by simp [zeroState], ?_⟩ <;>
    · intro v hv
      rw [List.eq_of_mem_replicate hv]
      simp

/-- Torch's documented contract for `nn.LSTM` on a (seq, batch = 1,
features) input: the output has one row of width `hiddenWidth` per input
row, and the returned recurrent state has the same shape as the one
passed in. -/
def LSTMContract (layers inWidth hiddenWidth : ℕ)
    (f : List Vec → LSTMState → List Vec × LSTMState) : Prop :=
  ∀ inp st, (∀ v ∈ inp, v.length = inWidth) → LSTMStateWf layers hiddenWidth st →
    (f inp st).1.length = inp.length ∧
      (∀ v ∈ (f inp st).1, v.length = hiddenWidth) ∧
      LSTMStateWf layers hiddenWidth (f inp st).2

/-- Splits a flat vector into `rows` rows of `cols` entries each. -/
def toRows (cols : ℕ) : ℕ → Vec → List Vec
  | 0, _ => []
  | r + 1, xs => xs.take cols :: toRows cols r (xs.drop cols)

theorem toRows_length (cols rows : ℕ) (xs : Vec) :
    (toRows cols rows xs).length = rows := by
  induction rows generalizing xs with
  | zero => rfl
  | succ r ih => simp [toRows, ih]

theorem toRows_mem_length (cols rows : ℕ) (xs : Vec)
    (hx : xs.length = rows * cols) :
    ∀ v ∈ toRows cols rows xs, v.length = cols := by
  induction rows generalizing xs with
  | zero => simp [toRows]
  | succ r ih =>
      intro v hv
      rw [toRows] at hv
      rw [Nat.succ_mul] at hx
      rcases List.mem_cons.mp hv with h | h
      · subst h
        rw [List.length_take]
        omega
      · exact ih (xs.drop cols) (by rw [List.length_drop, hx]; omega) v h

/-- Embedding of autograd `Variable.resize(rows, cols)` (with any
batch-1 axes elided): succeeds exactly when the element count matches
the requested shape, reinterpreting the elements row-major; a count
mismatch is a torch error, hence `none`. -/
def resizeRows (flat : Vec) (rows cols : ℕ) : Option (List Vec) :=
  if flat.length = rows * cols then some (toRows cols rows flat) else none

/-- Embedding of `LSTMCombinerNetwork` (neural_net.py lines 202-269):
dimensions, the `nn.LSTM` component and the recurrent state `hidden`.
The LSTM itself is torch code, external to the repository, so it is an
opaque function field (see `LSTMContract` for the shape contract the
claims use). -/
structure LSTMCombinerNetwork where
  embedding_dim : ℕ
  num_layers : ℕ
  lstm : List Vec → LSTMState → List Vec × LSTMState
  hidden : LSTMState

/-- Embedding of `LSTMCombinerNetwork.init_hidden` (lines 234-244):
zero tensors of shape (num_layers, 1, embedding_dim). -/
def LSTMCombinerNetwork.init_hidden (n : LSTMCombinerNetwork) : LSTMState :=
  zeroState n.num_layers n.embedding_dim

/-- Embedding of `LSTMCombinerNetwork.__init__` (lines 213-231): stores
the dimensions and the `nn.LSTM`, and sets `hidden` to the zero state
`init_hidden` produces. -/
def LSTMCombinerNetwork.new (embedding_dim num_layers : ℕ)
    (lstm : List Vec → LSTMState → List Vec × LSTMState) : LSTMCombinerNetwork :=
  ⟨embedding_dim, num_layers, lstm, zeroState num_layers embedding_dim⟩

/-- Embedding of `LSTMCombinerNetwork.forward` (lines 247-266): the
concatenated pair is resized to (num_layers, 1, embedding_dim * 2) and
fed to the LSTM together with `self.hidden`; the new recurrent state is
stored, and `self.hidden[0]` resized to (num_layers, embedding_dim) is
returned.  Both resizes fail on an element-count mismatch. -/
def LSTMCombinerNetwork.forward (n : LSTMCombinerNetwork)
    (head_embed modifier_embed : Vec) :
    Option (List Vec × LSTMCombinerNetwork) := do
  let inputSeq ← resizeRows (concat_and_flatten [head_embed, modifier_embed])
    n.num_layers (n.embedding_dim * 2)
  let r := n.lstm inputSeq n.hidden
  let res ← resizeRows (concat_and_flatten r.2.h) n.num_layers n.embedding_dim
  pure (res, { n with hidden := r.2 })

/-- Embedding of `LSTMCombinerNetwork.clear_hidden_state`
(lines 268-269): `self.hidden = self.init_hidden()`. -/
def LSTMCombinerNetwork.clear_hidden_state (n : LSTMCombinerNetwork) :
    LSTMCombinerNetwork :=
  { n with hidden := n.init_hidden }

/-- Embedding of `BiLSTMWordEmbeddingLookup` (neural_net.py lines
66-142): vocabulary map, dimensions, embedding table, the bidirectional
`nn.LSTM` (opaque, as above) and the recurrent state `hidden`.
`word_to_ix` is a Python dict, so lookup returns an `Option`. -/
structure BiLSTMWordEmbeddingLookup where
  word_to_ix : String → Option ℕ
  num_layers : ℕ
  word_embedding_dim : ℕ
  hidden_dim : ℕ
  word_embeddings : List Vec
  lstm : List Vec → LSTMState → List Vec × LSTMState
  hidden : LSTMState

/-- Embedding of `BiLSTMWordEmbeddingLookup.init_hidden` (lines
129-139): zero tensors of shape (num_layers * 2, 1, hidden_dim / 2)
(integer division, as in the Python-2 source). -/
def BiLSTMWordEmbeddingLookup.init_hidden (n : BiLSTMWordEmbeddingLookup) :
    LSTMState :=
  zeroState (n.num_layers * 2) (n.hidden_dim / 2)

/-- Embedding of `BiLSTMWordEmbeddingLookup.__init__` (lines 74-102):
stores the vocabulary map, dimensions, embedding table and `nn.LSTM`,
and sets `hidden` to the zero state `init_hidden` produces. -/
def BiLSTMWordEmbeddingLookup.new (word_to_ix : String → Option ℕ)
    (num_layers word_embedding_dim hidden_dim : ℕ) (word_embeddings : List Vec)
    (lstm : List Vec → LSTMState → List Vec × LSTMState) :
    BiLSTMWordEmbeddingLookup :=
  ⟨word_to_ix, num_layers, word_embedding_dim, hidden_dim, word_embeddings,
    lstm, zeroState (num_layers * 2) (hidden_dim / 2)⟩

/-- Embedding of `BiLSTMWordEmbeddingLookup.forward` (lines 104-127):
looks the words up (`utils.sequence_to_variable` then the embedding
table), resizes the embeddings to (len, 1, word_embedding_dim), runs the
LSTM with `self.hidden`, stores the new recurrent state and returns the
per-word outputs. -/
def BiLSTMWordEmbeddingLookup.forward (n : BiLSTMWordEmbeddingLookup)
    (sentence : List String) :
    Option (List Vec × BiLSTMWordEmbeddingLookup) := do
  let idxs ← sentence.mapM n.word_to_ix
  let embeds ← idxs.mapM (fun i => n.word_embeddings.get? i)
  let inputSeq ← resizeRows (concat_and_flatten embeds)
    sentence.length n.word_embedding_dim
  let r := n.lstm inputSeq n.hidden
  pure (r.1, { n with hidden := r.2 })

/-- Embedding of `BiLSTMWordEmbeddingLookup.clear_hidden_state`
(lines 141-142): `self.hidden = self.init_hidden()`. -/
def BiLSTMWordEmbeddingLookup.clear_hidden_state (n : BiLSTMWordEmbeddingLookup) :
    BiLSTMWordEmbeddingLookup :=
  { n with hidden := n.init_hidden }

/-- Embedding of `ActionChooserNetwork` (neural_net.py lines 275-307):
`input_dim` and the two linear layers built in `__init__`. -/
structure ActionChooserNetwork where
  input_dim : ℕ
  first_layer : Linear
  second_layer : Linear
deriving DecidableEq

/-- Embedding of `ActionChooserNetwork.__init__` (lines 285-297):
`first_layer = nn.Linear(input_dim, input_dim)` and
`second_layer = nn.Linear(input_dim, 3)`. -/
def ActionChooserNetwork.new (input_dim : ℕ) (w1 : List Vec) (b1 : Vec)
    (w2 : List Vec) (b2 : Vec) : ActionChooserNetwork :=
  ⟨input_dim, ⟨input_dim, input_dim, w1, b1⟩, ⟨input_dim, 3, w2, b2⟩⟩

/-- Well-formedness of an `ActionChooserNetwork`: the layer dimensions
are the ones `__init__` constructs. -/
def ActionChooserNetwork.wf (n : ActionChooserNetwork) : Prop :=
  n.first_layer.wf ∧ n.second_layer.wf ∧
    n.first_layer.inFeatures = n.input_dim ∧
    n.first_layer.outFeatures = n.input_dim ∧
    n.second_layer.inFeatures = n.input_dim ∧
    n.second_layer.outFeatures = 3

/-- Embedding of `ActionChooserNetwork.forward` (lines 300-307):
`F.log_softmax(second_layer(F.relu(first_layer(concat_and_flatten(inputs)))))`,
with `expF`/`logF` the abstracted transcendental functions inside
`log_softmax`. -/
def ActionChooserNetwork.forward (expF logF : ℚ → ℚ) (n : ActionChooserNetwork)
    (inputs : List Vec) : Option Vec := do
  let h1 ← n.first_layer.apply (concat_and_flatten inputs)
  let h2 ← n.second_layer.apply (h1.map relu)
  pure (log_softmax expF logF h2)

/-! ### Claim theorems -/

/-- A trivial concrete combiner, used to instantiate the external
combiner parameter when evaluating the transition system on concrete
states. -/
def combFst (v _w : List ℚ) : List ℚ :=
  v

/-- C2: for every sentence of length N, when the decoding loop reaches
the DONE state (buffer empty, stack size 1), the resulting parser state
has an empty buffer, exactly one stack entry, and exactly N - 1 recorded
arcs. -/
theorem done_state_shape {c sent} {s : TParserState}
    (h : Reachable c sent s) (hd : done s) :
    s.buffer = [] ∧ s.stack.length = 1 ∧ s.arcs.length = sent.length - 1 := by
  obtain ⟨hb, hs⟩ := hd
  refine ⟨hb, hs, ?_⟩
  have hc := reachable_count h
  rw [hb, hs] at hc
  simp at hc
  omega

theorem done_state_shape_witness :
    (⟨[⟨"a", 0, []⟩], [], []⟩ : TParserState).buffer = [] ∧
      (⟨[⟨"a", 0, []⟩], [], []⟩ : TParserState).stack.length = 1 ∧
      (⟨[⟨"a", 0, []⟩], [], []⟩ : TParserState).arcs.length =
        [(⟨"a", 0, []⟩ : Token)].length - 1 :=
  done_state_shape
    (show Reachable combFst [⟨"a", 0, []⟩] ⟨[⟨"a", 0, []⟩], [], []⟩ from
      Reachable.step Reachable.init (by decide)
        (show applyAction combFst .shift (initialState [⟨"a", 0, []⟩]) =
            .ok ⟨[⟨"a", 0, []⟩], [], []⟩ from rfl))
    ⟨rfl, rfl⟩

/-- C3: for every reachable parser state, the legal-action set is
exactly {SHIFT} when the stack depth is below 2 and the buffer is
non-empty, exactly {REDUCE_L, REDUCE_R} when the buffer is empty and the
stack depth is at least 2, and empty when the buffer is empty and the
stack depth is 1 (the DONE state). -/
theorem legal_actions_cases {c sent} {s : TParserState} (_h : Reachable c sent s) :
    (s.stack.length < 2 ∧ s.buffer ≠ [] → legal_actions s = [Action.shift]) ∧
      (s.buffer = [] ∧ 2 ≤ s.stack.length →
        legal_actions s = [Action.reduceL, Action.reduceR]) ∧
      (s.buffer = [] ∧ s.stack.length = 1 → legal_actions s = []) := by
  refine ⟨?_, ?_, ?_⟩
  · rintro ⟨h1, h2⟩
    rw [legal_actions, if_neg (by simp [h2]), if_neg (by omega)]
    rfl
  · rintro ⟨h1, h2⟩
    rw [legal_actions, if_pos (by simp [h1]), if_pos h2]
    rfl
  · rintro ⟨h1, h2⟩
    rw [legal_actions, if_pos (by simp [h1]), if_neg (by omega)]
    rfl

theorem legal_actions_cases_witness :
    legal_actions (initialState [⟨"a", 0, []⟩, ⟨"b", 1, []⟩]) = [Action.shift] :=
  (legal_actions_cases
      (show Reachable combFst [⟨"a", 0, []⟩, ⟨"b", 1, []⟩]
          (initialState [⟨"a", 0, []⟩, ⟨"b", 1, []⟩]) from Reachable.init)).1
    ⟨by decide, by decide⟩

/-- C4: for every parser state, an action whose precondition fails
(SHIFT on an empty buffer, REDUCE_L or REDUCE_R with stack depth below
2) raises `IllegalActionError`, and the caught-exception run
`tryAction` leaves the state exactly as it was — the failed transition
has no partial effect. -/
theorem illegal_action_atomic (c : List ℚ → List ℚ → List ℚ) (s : TParserState) :
    (s.buffer = [] →
      applyAction c .shift s = .error .illegalAction ∧ tryAction c .shift s = s) ∧
      (s.stack.length < 2 →
        (applyAction c .reduceL s = .error .illegalAction ∧
            tryAction c .reduceL s = s) ∧
          (applyAction c .reduceR s = .error .illegalAction ∧
            tryAction c .reduceR s = s)) := by
  constructor
  · intro hb
    simp [applyAction, tryAction, shift, hb]
  · intro hs
    match h : s.stack with
    | [] => simp [applyAction, tryAction, reduce_left, reduce_right, h]
    | [a] => simp [applyAction, tryAction, reduce_left, reduce_right, h]
    | a :: b :: t => rw [h] at hs; simp at hs; omega

theorem illegal_action_atomic_witness :
    (applyAction combFst .shift ⟨[], [], []⟩ = .error .illegalAction ∧
        tryAction combFst .shift ⟨[], [], []⟩ = ⟨[], [], []⟩) ∧
      (applyAction combFst .reduceL ⟨[], [], []⟩ = .error .illegalAction ∧
        tryAction combFst .reduceL ⟨[], [], []⟩ = ⟨[], [], []⟩) :=
  ⟨(illegal_action_atomic combFst ⟨[], [], []⟩).1 rfl,
    ((illegal_action_atomic combFst ⟨[], [], []⟩).2 (by decide)).1⟩

/-- C8: `SimpleFeatureExtractor.get_features` does not mutate the parser
state — the state-passing run hands back the stack, buffer and sentinel
unchanged (it performs only the read-only peek operations), and its
result is exactly the pure read `get_features` performs. -/
theorem get_features_pure (s : FParserState (List β)) (kwargs : κ) :
    (SimpleFeatureExtractor.get_featuresST s kwargs).2 = s ∧
      (SimpleFeatureExtractor.get_featuresST s kwargs).1 =
        SimpleFeatureExtractor.get_features s kwargs :=
  ⟨rfl, rfl⟩

/-- C9: the output of `SimpleFeatureExtractor.get_features` depends only
on the parser state — any two keyword-argument contexts, even ones of
different types, give equal feature lists; the kwargs context is
completely ignored. -/
theorem get_features_kwargs_ignored (s : FParserState (List β))
    (kw1 : κ₁) (kw2 : κ₂) :
    SimpleFeatureExtractor.get_features s kw1 =
      SimpleFeatureExtractor.get_features s kw2 :=
  rfl

/-- C6: `clear_hidden_state` on `BiLSTMWordEmbeddingLookup` and
`LSTMCombinerNetwork` restores the recurrent state to the all-zero
initial value, and afterwards `forward` on any input gives exactly what
a freshly constructed instance with the same parameters gives —
sequential state from earlier sentences is fully discarded. -/
theorem clear_hidden_state_fresh (b : BiLSTMWordEmbeddingLookup)
    (sentence : List String) (m : LSTMCombinerNetwork) (he me : Vec) :
    b.clear_hidden_state.hidden = zeroState (b.num_layers * 2) (b.hidden_dim / 2) ∧
      m.clear_hidden_state.hidden = zeroState m.num_layers m.embedding_dim ∧
      b.clear_hidden_state.forward sentence =
        (BiLSTMWordEmbeddingLookup.new b.word_to_ix b.num_layers
            b.word_embedding_dim b.hidden_dim b.word_embeddings b.lstm).forward
          sentence ∧
      m.clear_hidden_state.forward he me =
        (LSTMCombinerNetwork.new m.embedding_dim m.num_layers m.lstm).forward
          he me :=
  ⟨rfl, rfl, rfl, rfl⟩

theorem isSome_get_two {e : List β} : (e.get? 2).isSome ↔ 3 ≤ e.length := by
  rw [List.get?_eq_getElem?, Option.isSome_iff_ne_none]
  simp [List.getElem?_eq_none_iff]
  omega

/-- Closed form of `get_features`: the three positional lookups chained
by the Option monad. -/
theorem get_features_eq (s : FParserState (List β)) (kwargs : κ) :
    SimpleFeatureExtractor.get_features s kwargs =
      ((s.stack.headD s.null_entry).get? 2).bind fun a =>
        (((s.stack.drop 1).headD s.null_entry).get? 2).bind fun b =>
          ((s.buffer.headD s.null_entry).get? 2).bind fun c =>
            some [a, b, c] := by
  rw [SimpleFeatureExtractor.get_features, stack_peek_two, buffer_peek_one]
  simp only [List.mapM, List.mapM.loop, List.get?, bind, Option.bind,
    List.reverse_cons, List.reverse_nil, List.nil_append, List.cons_append,
    pure]
  cases h1 : (s.stack.headD s.null_entry).get? 2 <;>
    cases h2 : ((s.stack.drop 1).headD s.null_entry).get? 2 <;>
    cases h3 : (s.buffer.headD s.null_entry).get? 2 <;>
    simp

/-- C1: for every parser state, `SimpleFeatureExtractor.get_features`
returns (when defined) a list of exactly 3 representation vectors, in
order: the representation of the top stack entry, of the second-from-top
stack entry (the NULL sentinel standing in when the stack is shallower),
then of the front buffer entry — fixed length regardless of stack or
buffer depth. -/
theorem get_features_window (s : FParserState (List β)) (kwargs : κ)
    (feats : List β)
    (h : SimpleFeatureExtractor.get_features s kwargs = some feats) :
    feats.length = 3 ∧
      feats.get? 0 = (s.stack.headD s.null_entry).get? 2 ∧
      feats.get? 1 = ((s.stack.drop 1).headD s.null_entry).get? 2 ∧
      feats.get? 2 = (s.buffer.headD s.null_entry).get? 2 := by
  rw [get_features_eq] at h
  simp only [Option.bind_eq_some, Option.some_inj] at h
  obtain ⟨a, ha, b, hb, c, hc, hf⟩ := h
  subst hf
  exact ⟨rfl, ha.symm, hb.symm, hc.symm⟩

theorem get_features_window_witness :
    ([(3 : ℕ), 0, 6] : List ℕ).length = 3 ∧
      ([(3 : ℕ), 0, 6] : List ℕ).get? 0 =
        ((⟨[[1, 2, 3]], [[4, 5, 6]], [0, 0, 0]⟩ :
            FParserState (List ℕ)).stack.headD [0, 0, 0]).get? 2 ∧
      ([(3 : ℕ), 0, 6] : List ℕ).get? 1 =
        (((⟨[[1, 2, 3]], [[4, 5, 6]], [0, 0, 0]⟩ :
            FParserState (List ℕ)).stack.drop 1).headD [0, 0, 0]).get? 2 ∧
      ([(3 : ℕ), 0, 6] : List ℕ).get? 2 =
        ((⟨[[1, 2, 3]], [[4, 5, 6]], [0, 0, 0]⟩ :
            FParserState (List ℕ)).buffer.headD [0, 0, 0]).get? 2 :=
  get_features_window (⟨[[1, 2, 3]], [[4, 5, 6]], [0, 0, 0]⟩ :
      FParserState (List ℕ)) () [3, 0, 6] (by decide)

/-- C10: `get_features` reads component 2 of each entry of
`stack_peek_n 2` and of entry 0 of `input_buffer_peek_n 1`, so it is
defined exactly when every peeked entry has at least 3 components and
the buffer peek is non-empty; under the peek contract (exactly n
NULL-padded entries, every entry and the sentinel carrying a
representation at position 2) no lookup can fail, even on an empty stack
or buffer. -/
theorem get_features_defined (s : FParserState (List β)) (kwargs : κ) :
    ((SimpleFeatureExtractor.get_features s kwargs).isSome ↔
      (∀ e ∈ s.stack_peek_n 2, 3 ≤ e.length) ∧
        s.input_buffer_peek_n 1 ≠ [] ∧
        (∀ e ∈ s.input_buffer_peek_n 1, 3 ≤ e.length)) ∧
      (3 ≤ s.null_entry.length → (∀ e ∈ s.stack, 3 ≤ e.length) →
        (∀ e ∈ s.buffer, 3 ≤ e.length) →
        (SimpleFeatureExtractor.get_features s kwargs).isSome) := by
  have key : (SimpleFeatureExtractor.get_features s kwargs).isSome ↔
      3 ≤ (s.stack.headD s.null_entry).length ∧
        3 ≤ ((s.stack.drop 1).headD s.null_entry).length ∧
        3 ≤ (s.buffer.headD s.null_entry).length := by
    rw [get_features_eq]
    rw [show (3 ≤ (s.stack.headD s.null_entry).length) =
        ((s.stack.headD s.null_entry).get? 2).isSome from
      (propext isSome_get_two).symm]
    rw [show (3 ≤ ((s.stack.drop 1).headD s.null_entry).length) =
        (((s.stack.drop 1).headD s.null_entry).get? 2).isSome from
      (propext isSome_get_two).symm]
    rw [show (3 ≤ (s.buffer.headD s.null_entry).length) =
        ((s.buffer.headD s.null_entry).get? 2).isSome from
      (propext isSome_get_two).symm]
    cases (s.stack.headD s.null_entry).get? 2 <;>
      cases ((s.stack.drop 1).headD s.null_entry).get? 2 <;>
      cases (s.buffer.headD s.null_entry).get? 2 <;>
      simp
  constructor
  · rw [key, stack_peek_two, buffer_peek_one]
    constructor
    · rintro ⟨h1, h2, h3⟩
      refine ⟨?_, by simp, ?_⟩
      · intro e he
        rcases List.mem_cons.mp he with h | h
        · rw [h]; exact h1
        · rw [List.mem_singleton.mp h]; exact h2
      · intro e he
        rw [List.mem_singleton.mp he]
        exact h3
    · rintro ⟨h1, _, h3⟩
      exact ⟨h1 _ (by simp), h1 _ (by simp), h3 _ (by simp)⟩
  · intro h0 h1 h2
    have hh : ∀ l : List (List β), (∀ e ∈ l, 3 ≤ e.length) →
        3 ≤ (l.headD s.null_entry).length := by
      intro l hl
      cases l with
      | nil => exact h0
      | cons x t => exact hl x (List.mem_cons_self x t)
    exact key.mpr ⟨hh _ h1,
      hh _ (fun e he => h1 e (List.mem_of_mem_drop he)), hh _ h2⟩

theorem get_features_defined_witness :
    (SimpleFeatureExtractor.get_features
        (⟨[], [], [0, 0, 0]⟩ : FParserState (List ℕ)) ()).isSome :=
  (get_features_defined (⟨[], [], [0, 0, 0]⟩ : FParserState (List ℕ)) ()).2
    (by decide) (by decide) (by decide)

/-- C7: for every list of feature vectors whose concatenated width
equals the configured `input_dim`, `ActionChooserNetwork.forward`
succeeds and returns the log softmax of affine-then-relu-then-affine
applied to the concatenated features — a row vector of length 3, one
score per action in {SHIFT, REDUCE_L, REDUCE_R}. -/
theorem action_chooser_shape (expF logF : ℚ → ℚ) (n : ActionChooserNetwork)
    (hw : n.wf) (inputs : List Vec)
    (hlen : (concat_and_flatten inputs).length = n.input_dim) :
    ∃ y1 y2, n.first_layer.apply (concat_and_flatten inputs) = some y1 ∧
      n.second_layer.apply (y1.map relu) = some y2 ∧
      n.forward expF logF inputs = some (log_softmax expF logF y2) ∧
      (log_softmax expF logF y2).length = 3 := by
  obtain ⟨hw1, hw2, hi1, ho1, hi2, ho2⟩ := hw
  obtain ⟨y1, e1, l1⟩ := Linear.apply_wf hw1 (concat_and_flatten inputs)
    (by rw [hlen, hi1])
  obtain ⟨y2, e2, l2⟩ := Linear.apply_wf hw2 (y1.map relu)
    (by rw [List.length_map, l1, ho1, hi2])
  refine ⟨y1, y2, e1, e2, ?_, ?_⟩
  · simp [ActionChooserNetwork.forward, e1, e2]
  · rw [log_softmax_length, l2, ho2]

theorem action_chooser_shape_witness :
    ∃ y1 y2, (ActionChooserNetwork.new 1 [[1]] [0] [[1], [1], [1]]
        [0, 0, 0]).first_layer.apply (concat_and_flatten [[(5 : ℚ)]]) = some y1 ∧
      (ActionChooserNetwork.new 1 [[1]] [0] [[1], [1], [1]]
          [0, 0, 0]).second_layer.apply (y1.map relu) = some y2 ∧
      (ActionChooserNetwork.new 1 [[1]] [0] [[1], [1], [1]]
          [0, 0, 0]).forward id id [[(5 : ℚ)]] = some (log_softmax id id y2) ∧
      (log_softmax id id y2).length = 3 :=
  action_chooser_shape id id (ActionChooserNetwork.new 1 [[1]] [0] [[1], [1], [1]]
      [0, 0, 0])
    (by simp only [ActionChooserNetwork.wf, Linear.wf, ActionChooserNetwork.new]
        decide)
    [[(5 : ℚ)]] (by decide)

theorem toRows_one (cols : ℕ) (xs : Vec) : toRows cols 1 xs = [xs.take cols] :=
  rfl

/-- C5 (amended): the MLP combiner always returns a single vector of the
embedding dimensionality D on D-dimensional head and modifier
embeddings; the LSTM combiner does so when constructed with
`num_layers = 1` — for deeper stacks its input resize fails (see the
counterexample) — given an `nn.LSTM` obeying torch's shape contract and
a well-shaped recurrent state. -/
theorem combiner_output_dim (tanhF : ℚ → ℚ) (D : ℕ)
    (mlp : MLPCombinerNetwork) (hmw : mlp.wf) (hmd : mlp.embedding_dim = D)
    (lc : LSTMCombinerNetwork) (hl1 : lc.num_layers = 1)
    (hld : lc.embedding_dim = D)
    (hc : LSTMContract lc.num_layers (lc.embedding_dim * 2) lc.embedding_dim lc.lstm)
    (hh : LSTMStateWf lc.num_layers lc.embedding_dim lc.hidden)
    (headE modE : Vec) (hhe : headE.length = D) (hme : modE.length = D) :
    (∃ v, mlp.forward tanhF headE modE = some v ∧ v.length = D) ∧
      (∃ v lc2, lc.forward headE modE = some ([v], lc2) ∧ v.length = D) := by
  constructor
  · obtain ⟨hw1, hw2, hi1, ho1, hi2, ho2⟩ := hmw
    obtain ⟨y1, e1, l1⟩ := Linear.apply_wf hw1 (concat_and_flatten [headE, modE])
      (by simp [concat_and_flatten, hhe, hme, hi1, hmd]; ring)
    obtain ⟨y2, e2, l2⟩ := Linear.apply_wf hw2 (y1.map tanhF)
      (by rw [List.length_map, l1, ho1, hi2])
    refine ⟨y2, ?_, by rw [l2, ho2, hmd]⟩
    simp [MLPCombinerNetwork.forward, e1, e2]
  · have hflen : (concat_and_flatten [headE, modE]).length = lc.embedding_dim * 2 := by
      simp [concat_and_flatten, hhe, hme, hld]
      ring
    have hin : resizeRows (concat_and_flatten [headE, modE]) lc.num_layers
        (lc.embedding_dim * 2) = some [concat_and_flatten [headE, modE]] := by
      rw [resizeRows, if_pos (by rw [hflen, hl1, Nat.one_mul]), hl1, toRows_one,
        ← hflen, List.take_length]
    obtain ⟨_, hmem2, hwf2⟩ := hc [concat_and_flatten [headE, modE]] lc.hidden
      (by intro v hv; rw [List.mem_singleton.mp hv]; exact hflen) hh
    obtain ⟨hlen2, hrow2, _, _⟩ := hwf2
    have hone : ∃ v, (lc.lstm [concat_and_flatten [headE, modE]] lc.hidden).2.h = [v] ∧
        v.length = lc.embedding_dim := by
      match hv : (lc.lstm [concat_and_flatten [headE, modE]] lc.hidden).2.h with
      | [] => rw [hv, hl1] at hlen2; simp at hlen2
      | [v] => exact ⟨v, rfl, hrow2 v (by rw [hv]; exact List.mem_singleton_self v)⟩
      | v :: w :: t => rw [hv, hl1] at hlen2; simp at hlen2
    obtain ⟨v, hv, hvlen⟩ := hone
    have hout : resizeRows
        (concat_and_flatten (lc.lstm [concat_and_flatten [headE, modE]] lc.hidden).2.h)
        lc.num_layers lc.embedding_dim = some [v] := by
      rw [hv, resizeRows, if_pos (by simp [concat_and_flatten, hvlen, hl1]), hl1,
        toRows_one, ← hvlen]
      simp [concat_and_flatten]
    refine ⟨v, ⟨lc.embedding_dim, lc.num_layers, lc.lstm,
      (lc.lstm [concat_and_flatten [headE, modE]] lc.hidden).2⟩, ?_, by rw [hvlen, hld]⟩
    simp only [LSTMCombinerNetwork.forward, hin, hout, Option.bind_eq_bind,
      Option.some_bind]
    rfl

/-- A constant `nn.LSTM` stand-in obeying the shape contract for one
layer, input width 2 and hidden width 1, used to evaluate the LSTM
combiner on concrete inputs. -/
def lstmConst (inp : List Vec) (st : LSTMState) : List Vec × LSTMState :=
  (inp.map (fun _ => [0]), st)

theorem lstmConst_contract : LSTMContract 1 2 1 lstmConst := by
  intro inp st _ hst
  refine ⟨by simp [lstmConst], ?_, by simpa [lstmConst] using hst⟩
  intro v hv
  simp [lstmConst] at hv
  rw [hv.2]
  rfl

theorem combiner_output_dim_witness :
    (∃ v, (MLPCombinerNetwork.new 1 [[1, 1]] [0] [[1]] [0]).forward id
        [(0 : ℚ)] [(0 : ℚ)] = some v ∧ v.length = 1) ∧
      (∃ v lc2, (LSTMCombinerNetwork.new 1 1 lstmConst).forward
          [(0 : ℚ)] [(0 : ℚ)] = some ([v], lc2) ∧ v.length = 1) :=
  combiner_output_dim id 1 (MLPCombinerNetwork.new 1 [[1, 1]] [0] [[1]] [0])
    (by simp only [MLPCombinerNetwork.wf, Linear.wf, MLPCombinerNetwork.new]
        decide)
    rfl (LSTMCombinerNetwork.new 1 1 lstmConst) rfl rfl lstmConst_contract
    (zeroState_wf 1 1) [(0 : ℚ)] [(0 : ℚ)] rfl rfl

/-- C5 counterexample: an `LSTMCombinerNetwork` constructed with
embedding_dim = 1 but num_layers = 2, applied to 1-dimensional head and
modifier embeddings, does not return a vector at all — the resize of the
2-element input to shape (2, 1, 2) fails — refuting the claim as stated
for `LSTMCombinerNetwork.forward`. -/
theorem combiner_claim_counterexample :
    (LSTMCombinerNetwork.new 1 2 lstmConst).forward [(0 : ℚ)] [(0 : ℚ)] = none :=
  rfl

end DepParser
